import Mathlib

/-!
Shallow embedding of the sampling and statistics engine of `src/deepqmc/sampling.py`
(`sample_wf`, `MetropolisSampler`, `LangevinSampler`).

Conventions of the embedding:
* Exact arithmetic replaces floating point: scalar summaries, local energies and the
  detector window live in `ℚ`; wave-function values, step sizes and acceptance
  probabilities (which go through `exp`/`sqrt`) live in `ℝ`.
* External collaborators (`pairwise_self_distance`, `local_energy`, `quantum_force`,
  `clean_force`, the wave-function forward pass, random draws) are inputs: their values
  are fed to the embedded code as arguments, mirroring the interface contracts in the
  repository.
* Per-step per-walker tensors of shape `(W, N, 3)` are modelled per walker; the inner
  electron-coordinate axes are never inspected by the sampling logic.
-/

namespace DeepQMC

/-- Arithmetic mean of a list of exact values (`tensor.mean()` / `ndarray.mean()`).
For the empty list the division by zero yields `0`. -/
def listMean (xs : List ℚ) : ℚ := xs.sum / xs.length

/-- Unbiased sample variance, the square of `torch.Tensor.std()` (Bessel correction,
denominator `n - 1`).  For `n ≤ 1` the rational division by zero yields `0`. -/
def sampleVar (xs : List ℚ) : ℚ :=
  (xs.map (fun x => (x - listMean xs) ^ 2)).sum / ((xs.length : ℚ) - 1)

/-- Population variance, the square of `numpy.ndarray.std()` (`ddof = 0`). -/
def popVar (xs : List ℚ) : ℚ :=
  (xs.map (fun x => (x - listMean xs) ^ 2)).sum / (xs.length : ℚ)

/-- Per-walker mean over a stack of rows: `torch.stack(buffer).mean(dim=0)` on a list of
`W`-vectors (and likewise `blocks_arr.mean(-1)` after transposition).  The walker count
is the length of the first row, as the tensor shape dictates; out-of-range access (never
exercised on rectangular data) defaults to `0`. -/
def colMeans (rows : List (List ℚ)) : List ℚ :=
  (List.range rows.headI.length).map fun w => listMean (rows.map fun r => r.getD w 0)

/-- State of the `sample_wf` loop (lines 43–73): the sliding window `dist_means`
(length `5 * block_size`), the `calculating_energy` flag, the raw-sample buffers and the
committed blocks.  A committed block is the per-walker block mean
(`buffer.mean(dim=0)`); the accompanying per-walker standard error stored in the
`uncertainties` array is discarded by `unp.nominal_values` on line 69 and never read,
so it is not carried here.  `α` is the abstract payload type of the sampled electron
coordinates `rs`. -/
structure SampleWFState (α : Type) where
  dist_means : List ℚ
  calculating : Bool
  buffer : List (List ℚ)
  buffer_rs : List α
  blocks : List (List ℚ)
deriving DecidableEq

/-- One element yielded by `sample_wf`.  The equilibrium transition yields
`(step, None, None)` (line 55); a block commit yields the step, the committed blocks
(from which lines 69–71 compute the energy estimate, see `energyNominal`/`energyErr`)
and the buffered coordinates. -/
structure SampleWFYield (α : Type) where
  step : ℕ
  blocksSnapshot : Option (List (List ℚ))
  rsSnapshot : Option (List α)
deriving DecidableEq

/-- The equilibrium trigger of lines 52–53, evaluated on the already-shifted window:
`dist_means[0] > 0` and `dist_means[:block_size].std() < dist_means[-block_size:].std()`
— the standard deviation of the *oldest* `block_size` entries strictly below that of the
*newest* `block_size` entries.  The `std` comparison is expressed by the equivalent
comparison of unbiased sample variances (see `sqrt_sampleVar_lt_iff`). -/
def equilibriumTrigger (block_size : ℕ) (w : List ℚ) : Bool :=
  decide (0 < w.headI) &&
    decide (sampleVar (w.take block_size) < sampleVar (w.drop (4 * block_size)))

/-- One iteration of the `sample_wf` loop body (lines 47–73) at step index `n`, fed the
external collaborators' values for this step: the coordinate payload `r`, the scalar
summary `d = pairwise_self_distance(rs).mean()` and the per-walker local energies
`Es = local_energy(rs, wf)[0]`.  Returns the new state together with the elements
yielded during this iteration, in order. -/
def sampleWFStep (block_size : ℕ) (st : SampleWFState α) (n : ℕ)
    (r : α) (d : ℚ) (Es : List ℚ) : SampleWFState α × List (SampleWFYield α) :=
  let dist_means := st.dist_means.drop 1 ++ [d]
  let flip := !st.calculating && equilibriumTrigger block_size dist_means
  let calculating := st.calculating || flip
  let yields0 : List (SampleWFYield α) := if flip then [⟨n, none, none⟩] else []
  if calculating then
    let buffer := st.buffer ++ [Es]
    let buffer_rs := st.buffer_rs ++ [r]
    if buffer.length = block_size then
      let blocks := st.blocks ++ [colMeans buffer]
      (⟨dist_means, calculating, [], [], blocks⟩,
        yields0 ++ [⟨n, some blocks, some buffer_rs⟩])
    else
      (⟨dist_means, calculating, buffer, buffer_rs, st.blocks⟩, yields0)
  else
    (⟨dist_means, calculating, st.buffer, st.buffer_rs, st.blocks⟩, yields0)

/-- Run the `sample_wf` loop over a list of indexed step inputs, collecting all yielded
elements. -/
def sampleWFGo (block_size : ℕ) (l : List (ℕ × α × ℚ × List ℚ))
    (st : SampleWFState α) : SampleWFState α × List (SampleWFYield α) :=
  match l with
  | [] => (st, [])
  | p :: rest =>
      let s1 := sampleWFStep block_size st p.1 p.2.1 p.2.2.1 p.2.2.2
      let s2 := sampleWFGo block_size rest s1.1
      (s2.1, s1.2 ++ s2.2)

/-- Initial `sample_wf` state: window of `5 * block_size` zeros (line 49),
`calculating_energy = not equilibrate` (line 44), empty buffers and no blocks. -/
def sampleWFInit (block_size : ℕ) (equilibrate : Bool) : SampleWFState α :=
  ⟨List.replicate (5 * block_size) 0, !equilibrate, [], [], []⟩

/-- The `sample_wf` run on the steps `0, 1, 2, …` paired with the per-step external inputs. -/
def sampleWFRun (block_size : ℕ) (equilibrate : Bool)
    (inputs : List (α × ℚ × List ℚ)) : SampleWFState α × List (SampleWFYield α) :=
  sampleWFGo block_size inputs.enum (sampleWFInit block_size equilibrate)

/-- The sequence of committed blocks produced from a stream of per-step local-energy
vectors: the per-walker means of the successive `block_size`-sized chunks. -/
def blockMeans (block_size : ℕ) (xs : List (List ℚ)) : List (List ℚ) :=
  if _h : 0 < block_size ∧ block_size ≤ xs.length then
    colMeans (xs.take block_size) :: blockMeans block_size (xs.drop block_size)
  else []
termination_by xs.length
decreasing_by
  simp only [List.length_drop]
  omega

/-- The values left in the buffer after all full `block_size`-sized chunks of a stream
have been committed. -/
def blockRemainder (block_size : ℕ) (xs : List (List ℚ)) : List (List ℚ) :=
  if _h : 0 < block_size ∧ block_size ≤ xs.length then
    blockRemainder block_size (xs.drop block_size)
  else xs
termination_by xs.length
decreasing_by
  simp only [List.length_drop]
  omega

/-- The nominal value of the energy estimate (line 71): `blocks_arr.mean()`, the grand
mean of all per-walker block means. -/
def energyNominal (blocks : List (List ℚ)) : ℚ := listMean blocks.join

/-- The standard deviation of the energy estimate (lines 69–71):
`err = blocks_arr.mean(-1).std() / np.sqrt(len(blocks_arr))` where
`blocks_arr = unp.nominal_values(np.stack(blocks, -1))` is the `W × k` matrix of
per-walker block means.  `blocks_arr.mean(-1)` is the per-walker mean over the committed
blocks (`colMeans blocks`), `.std()` is the population standard deviation over the `W`
walkers, and `len(blocks_arr)` is the length of the *first* axis of the stacked matrix —
the walker count `W` (the length of a block), not the number of blocks. -/
noncomputable def energyErr (blocks : List (List ℚ)) : ℝ :=
  Real.sqrt (popVar (colMeans blocks) : ℝ) / Real.sqrt (blocks.headI.length : ℝ)

/-- The standard deviation prescribed by the specification sentence behind claim C2,
written from the spec's words for comparison with `energyErr`: the (population) standard
deviation of the block means divided by the square root of the number of committed
blocks. -/
noncomputable def energyErrSpec (blocks : List (List ℚ)) : ℝ :=
  Real.sqrt (popVar (blocks.map listMean) : ℝ) / Real.sqrt (blocks.length : ℝ)

/-- Per-step diagnostic record of `MetropolisSampler.step` (lines 235–239): the batch
acceptance ratio, the post-update walker ages, and the (pre-update) step size. -/
structure StepInfo (W : ℕ) where
  acceptance : ℝ
  age : Fin W → ℕ
  tau : ℝ

/-- State and hyperparameters of a `MetropolisSampler` over `W` walkers
(lines 147–172).  Floating-point scalars are modelled as reals; each walker's `(N, 3)`
position payload is modelled as one real, since the inner electron-coordinate axes are
never inspected by the sampling logic.  The `forces` field is the extra state of the
`LangevinSampler` subclass; a Metropolis step neither reads nor writes it.  A
`target_acceptance` of `0` stands for any falsy value (`None` or `0.0`), as line 245
tests Python truthiness.  `stepIdx` is `self._step` and `totalstep` is
`self._totalstep`. -/
structure Sampler (W : ℕ) where
  rs : Fin W → ℝ
  log_psis : Fin W → ℝ
  sign_psis : Fin W → ℝ
  forces : Fin W → ℝ
  ages : Fin W → ℕ
  tau : ℝ
  max_age : Option ℕ
  n_first_certain : ℕ
  log_psi_threshold : Option ℝ
  target_acceptance : ℝ
  n_discard : ℕ
  n_decorrelate : ℕ
  stepIdx : ℕ
  totalstep : ℕ

/-- The per-walker acceptance decision of `MetropolisSampler.step` (lines 223–231): the
Bernoulli draw `Ps_acc > rand` (line 223, `u` being the `torch.rand_like` draw), then
the optional log-amplitude-threshold override of lines 224–227 — with Python's `&`
binding tighter than `|` the mask becomes `(accepted ∧ log_psis' > thr) ∨ (log_psis <
thr ∧ log_psis' > log_psis)` — then the optional max-age force-accept of lines 228–229,
and finally the unconditional acceptance during the first `n_first_certain` steps
(lines 230–231). -/
def acceptedMask {W : ℕ} (s : Sampler W) (Ps_acc log_psis u : Fin W → ℝ)
    (i : Fin W) : Prop :=
  let base := Ps_acc i > u i
  let afterThr :=
    match s.log_psi_threshold with
    | none => base
    | some thr => (base ∧ log_psis i > thr) ∨
        (s.log_psis i < thr ∧ log_psis i > s.log_psis i)
  let afterAge :=
    match s.max_age with
    | none => afterThr
    | some m => afterThr ∨ s.ages i ≥ m
  if s.stepIdx < s.n_first_certain then True else afterAge

/-- Modelled from the spec: `assign_where` from `deepqmc.torchext` is not under `src/`;
per §4.3 step 8 of the spec it commits accepted candidate fields in place — `target[i]`
becomes `source[i]` where `mask[i]` holds, and rejected walkers retain their previous
values. -/
noncomputable def assign_where {W : ℕ} (target source : Fin W → ℝ)
    (mask : Fin W → Prop) : Fin W → ℝ :=
  open Classical in fun i => if mask i then source i else target i

/-- The shared body of `MetropolisSampler.step` (lines 223–267) once `acceptance_prob`
has returned `(Ps_acc, log_psis, sign_psis, *extra_vars)` for the candidate positions
`rsCand`: acceptance decision, age bookkeeping (lines 232–233), batch acceptance ratio
(line 234), the `info` record (lines 235–239), the in-place commit of accepted fields
via `assign_where` (lines 240–244), the step-size update (lines 245–246) and the step
counters (lines 247–248).  `extraForces = some f` models the `LangevinSampler` subclass
(`extra_vars = (self.forces,)` committed to `f` on accepted walkers); `none` models the
Metropolis sampler (`extra_vars = ()`).  The method's return value (line 267) is the
new state's `rs`, `log_psis`, `sign_psis` (as clones) plus `info`. -/
noncomputable def stepCommit {W : ℕ} (s : Sampler W)
    (rsCand Ps_acc log_psis sign_psis : Fin W → ℝ)
    (extraForces : Option (Fin W → ℝ)) (u : Fin W → ℝ) : Sampler W × StepInfo W :=
  open Classical in
  let acc := fun i => acceptedMask s Ps_acc log_psis u i
  let ages1 := fun i => if acc i then 0 else s.ages i + 1
  let acceptance := (∑ i, if acc i then (1 : ℝ) else 0) / W
  let info : StepInfo W := ⟨acceptance, ages1, s.tau⟩
  let tau1 := if s.target_acceptance ≠ 0
    then s.tau / (s.target_acceptance / max acceptance 0.05) else s.tau
  ({ s with
      rs := assign_where s.rs rsCand acc
      log_psis := assign_where s.log_psis log_psis acc
      sign_psis := assign_where s.sign_psis sign_psis acc
      forces := match extraForces with
        | none => s.forces
        | some f => assign_where s.forces f acc
      ages := ages1
      tau := tau1
      stepIdx := s.stepIdx + 1
      totalstep := s.totalstep + 1 }, info)

/-- Method `MetropolisSampler.proposal` (lines 174–175): current positions plus the
`torch.randn_like` draw (`noise`) scaled by `tau`. -/
noncomputable def MetropolisSampler.proposal {W : ℕ} (s : Sampler W)
    (noise : Fin W → ℝ) : Fin W → ℝ :=
  fun i => s.rs i + noise i * s.tau

/-- Method `MetropolisSampler.acceptance_prob` (lines 177–183): evaluate the wave function at
the candidate positions and return `Ps_acc = exp(2 * (log_psis' - log_psis))` with the
candidate log-amplitudes and signs. -/
noncomputable def MetropolisSampler.acceptance_prob {W : ℕ}
    (wf : (Fin W → ℝ) → (Fin W → ℝ) × (Fin W → ℝ)) (s : Sampler W)
    (rs : Fin W → ℝ) : (Fin W → ℝ) × (Fin W → ℝ) × (Fin W → ℝ) :=
  (fun i => Real.exp (2 * ((wf rs).1 i - s.log_psis i)), (wf rs).1, (wf rs).2)

/-- Method `MetropolisSampler.step` (lines 220–267) for the Metropolis variant
(`extra_vars = ()`): draw the proposal, compute the acceptance probabilities, then run
the shared commit body `stepCommit`. -/
noncomputable def MetropolisSampler.step {W : ℕ}
    (wf : (Fin W → ℝ) → (Fin W → ℝ) × (Fin W → ℝ))
    (noise u : Fin W → ℝ) (s : Sampler W) : Sampler W × StepInfo W :=
  stepCommit s (MetropolisSampler.proposal s noise)
    (MetropolisSampler.acceptance_prob wf s (MetropolisSampler.proposal s noise)).1
    (MetropolisSampler.acceptance_prob wf s (MetropolisSampler.proposal s noise)).2.1
    (MetropolisSampler.acceptance_prob wf s (MetropolisSampler.proposal s noise)).2.2
    none u

/-- The decomposition-failure condition raised by the external `quantum_force`
(`torchext.LUFactError`): its `info` carries the offending walker indices `idxs`, plus
the `rs` slot that `LangevinSampler.qforce` fills with the offending candidate
positions before re-raising. -/
structure LUFactError (W : ℕ) where
  idxs : List (Fin W)
  rs : Option (List ℝ)

/-- Method `LangevinSampler.proposal` (lines 346–351): positions plus the drift
`forces * tau` plus the `torch.randn_like` draw scaled by `sqrt tau`. -/
noncomputable def LangevinSampler.proposal {W : ℕ} (s : Sampler W)
    (noise : Fin W → ℝ) : Fin W → ℝ :=
  fun i => s.rs i + s.forces i * s.tau + noise i * Real.sqrt s.tau

/-- Method `LangevinSampler.qforce` (lines 364–371): call the external `quantum_force`; if it
raises a `LUFactError` `e`, store the offending candidate positions
(`rs[e.info['idxs']]`, line 368) into the error and re-raise; on success post-process
the forces through the external `clean_force` regularizer (line 370). -/
def LangevinSampler.qforce {W : ℕ}
    (quantum_force : (Fin W → ℝ) →
      Except (LUFactError W) ((Fin W → ℝ) × (Fin W → ℝ) × (Fin W → ℝ)))
    (clean_force : (Fin W → ℝ) → (Fin W → ℝ) → ℝ → Fin W → ℝ)
    (tau : ℝ) (rs : Fin W → ℝ) :
    Except (LUFactError W) ((Fin W → ℝ) × (Fin W → ℝ) × (Fin W → ℝ)) :=
  match quantum_force rs with
  | .error e => .error { e with rs := some (e.idxs.map rs) }
  | .ok (forces, lp) => .ok (clean_force forces rs tau, lp)

/-- Method `LangevinSampler.acceptance_prob` (lines 353–362): the Green's-function asymmetry
correction `log_G_ratios` plus the wave-function ratio, per walker (the tensor sum over
electron and coordinate axes collapses in the one-real-per-walker model); returns the
candidate forces as the extra variable. -/
noncomputable def LangevinSampler.acceptance_prob {W : ℕ}
    (quantum_force : (Fin W → ℝ) →
      Except (LUFactError W) ((Fin W → ℝ) × (Fin W → ℝ) × (Fin W → ℝ)))
    (clean_force : (Fin W → ℝ) → (Fin W → ℝ) → ℝ → Fin W → ℝ)
    (s : Sampler W) (rs : Fin W → ℝ) :
    Except (LUFactError W)
      ((Fin W → ℝ) × (Fin W → ℝ) × (Fin W → ℝ) × (Fin W → ℝ)) :=
  match LangevinSampler.qforce quantum_force clean_force s.tau rs with
  | .error e => .error e
  | .ok (forces, log_psis, sign_psis) =>
      .ok (fun i => Real.exp ((s.forces i + forces i) *
            ((s.rs i - rs i) + s.tau / 2 * (s.forces i - forces i)) +
            2 * (log_psis i - s.log_psis i)),
        log_psis, sign_psis, forces)

/-- Method `LangevinSampler.step`: the inherited step body (lines 220–267) with the Langevin
`proposal`, `acceptance_prob` and `extra_vars = (self.forces,)`.  A `LUFactError`
raised inside `acceptance_prob` propagates to the caller; the error branch carries the
sampler state as it stands at the raise point, which is the untouched pre-step state
since every mutation of lines 232–248 happens after `acceptance_prob` returns. -/
noncomputable def LangevinSampler.step {W : ℕ}
    (quantum_force : (Fin W → ℝ) →
      Except (LUFactError W) ((Fin W → ℝ) × (Fin W → ℝ) × (Fin W → ℝ)))
    (clean_force : (Fin W → ℝ) → (Fin W → ℝ) → ℝ → Fin W → ℝ)
    (noise u : Fin W → ℝ) (s : Sampler W) :
    Except (LUFactError W × Sampler W) (Sampler W × StepInfo W) :=
  match LangevinSampler.acceptance_prob quantum_force clean_force s
      (LangevinSampler.proposal s noise) with
  | .error e => .error (e, s)
  | .ok (Ps_acc, log_psis, sign_psis, forces) =>
      .ok (stepCommit s (LangevinSampler.proposal s noise) Ps_acc log_psis sign_psis
        (some forces) u)

/-- The yield filter of `MetropolisSampler.iter_with_info` (lines 269–273): the `k`-th
executed `step()` (zero-based) runs with loop counter `i = k - n_discard` (from
`itertools.count(-n_discard)`) and its result is yielded iff
`i >= 0 and i % (n_decorrelate + 1) == 0`.  Every step is executed; this predicate only
governs which step results are yielded. -/
def iterWithInfoYields (n_discard n_decorrelate k : ℕ) : Prop :=
  0 ≤ (k : ℤ) - n_discard ∧ ((k : ℤ) - n_discard) % ((n_decorrelate : ℤ) + 1) = 0

/-- The value `n_steps = math.ceil(epoch_size * batch_size / len(self))` (line 292), the number
of samples drawn per epoch of `iter_batches`; `len(self)` is the walker count `W`. -/
def iterBatchesSteps (epoch_size batch_size walker_count : ℕ) : ℕ :=
  (epoch_size * batch_size + walker_count - 1) / walker_count

/-- Model of `DataLoader(samples_ds, batch_size=batch_size, shuffle=True,
drop_last=True)` (lines 297–299) applied to the flattened, shuffled sample pool
(line 295 flattens the `W × n_steps` stacked grid into `W * n_steps` rows): the
successive `batch_size`-sized minibatches, the trailing partial batch dropped. -/
def dataLoaderBatches {α : Type} (pool : List α) (batch_size : ℕ) : List (List α) :=
  (List.range (pool.length / batch_size)).map
    fun j => (pool.drop (j * batch_size)).take batch_size

theorem sampleVar_nonneg (xs : List ℚ) : 0 ≤ sampleVar xs := by
  rcases xs with _ | ⟨x, xs⟩
  · simp [sampleVar, listMean]
  · apply div_nonneg
    · apply List.sum_nonneg
      intro y hy
      obtain ⟨z, _, rfl⟩ := List.mem_map.1 hy
      positivity
    · have : (1 : ℚ) ≤ ((x :: xs).length : ℚ) := by
        exact_mod_cast Nat.succ_le_of_lt (List.length_pos.2 (by simp))
      linarith

/-- Comparing standard deviations (`std() < std()`, as on line 53 of the source) is the
same as comparing the underlying sample variances: `Real.sqrt` is strictly monotone on
nonnegative arguments.  The executable detector below therefore branches on the variance
comparison. -/
theorem sqrt_sampleVar_lt_iff (a b : List ℚ) :
    Real.sqrt (sampleVar a : ℝ) < Real.sqrt (sampleVar b : ℝ) ↔ sampleVar a < sampleVar b := by
  rw [Real.sqrt_lt_sqrt_iff (by exact_mod_cast sampleVar_nonneg a)]
  exact_mod_cast Iff.rfl

theorem blockMeans_length (block_size : ℕ) (hB : 0 < block_size) (xs : List (List ℚ)) :
    (blockMeans block_size xs).length = xs.length / block_size := by
  induction xs using blockMeans.induct block_size with
  | case1 xs h ih =>
      rw [blockMeans, dif_pos h, List.length_cons, ih,
        List.length_drop, Nat.div_eq_sub_div hB h.2]
  | case2 xs h =>
      rw [blockMeans, dif_neg h]
      have : xs.length < block_size := by omega
      simp [Nat.div_eq_of_lt this]

theorem blockRemainder_length (block_size : ℕ) (hB : 0 < block_size)
    (xs : List (List ℚ)) :
    (blockRemainder block_size xs).length = xs.length % block_size := by
  induction xs using blockRemainder.induct block_size with
  | case1 xs h ih =>
      rw [blockRemainder, dif_pos h, ih, List.length_drop,
        ← Nat.mod_eq_sub_mod h.2]
  | case2 xs h =>
      rw [blockRemainder, dif_neg h]
      have : xs.length < block_size := by omega
      rw [Nat.mod_eq_of_lt this]

theorem blockMeans_chunk (block_size : ℕ) (hB : 0 < block_size)
    (c rest : List (List ℚ)) (hc : c.length = block_size) :
    blockMeans block_size (c ++ rest) = colMeans c :: blockMeans block_size rest := by
  rw [blockMeans, dif_pos ⟨hB, by simp [hc]⟩, List.take_left' hc, List.drop_left' hc]

theorem blockRemainder_chunk (block_size : ℕ) (hB : 0 < block_size)
    (c rest : List (List ℚ)) (hc : c.length = block_size) :
    blockRemainder block_size (c ++ rest) = blockRemainder block_size rest := by
  rw [blockRemainder, dif_pos ⟨hB, by simp [hc]⟩, List.drop_left' hc]

theorem blockMeans_short (block_size : ℕ) (xs : List (List ℚ))
    (h : xs.length < block_size) : blockMeans block_size xs = [] := by
  rw [blockMeans, dif_neg (by omega)]

theorem blockMeans_exact (block_size : ℕ) (hB : 0 < block_size) (c : List (List ℚ))
    (hc : c.length = block_size) : blockMeans block_size c = [colMeans c] := by
  rw [blockMeans, dif_pos ⟨hB, le_of_eq hc.symm⟩, List.take_of_length_le (le_of_eq hc),
    List.drop_eq_nil_of_le (le_of_eq hc), blockMeans,
    dif_neg (by rintro ⟨h1, h2⟩; simp only [List.length_nil] at h2; omega)]

theorem blockRemainder_short (block_size : ℕ) (xs : List (List ℚ))
    (h : xs.length < block_size) : blockRemainder block_size xs = xs := by
  rw [blockRemainder, dif_neg (by omega)]

theorem sampleWFStep_calculating {α : Type} (block_size : ℕ) (st : SampleWFState α)
    (n : ℕ) (r : α) (d : ℚ) (Es : List ℚ) :
    (sampleWFStep block_size st n r d Es).1.calculating =
      (st.calculating || equilibriumTrigger block_size (st.dist_means.drop 1 ++ [d])) := by
  cases hc : st.calculating <;>
    simp only [sampleWFStep, hc, Bool.not_true, Bool.not_false, Bool.false_and,
      Bool.true_and, Bool.or_false, Bool.true_or, Bool.false_or, if_true] <;>
    cases ht : equilibriumTrigger block_size (st.dist_means.drop 1 ++ [d]) <;>
    simp <;> split <;> simp

theorem sampleWFStep_of_calculating {α : Type} (block_size : ℕ) (st : SampleWFState α)
    (hc : st.calculating = true) (n : ℕ) (r : α) (d : ℚ) (Es : List ℚ) :
    sampleWFStep block_size st n r d Es =
      if (st.buffer ++ [Es]).length = block_size then
        (⟨st.dist_means.drop 1 ++ [d], true, [], [],
            st.blocks ++ [colMeans (st.buffer ++ [Es])]⟩,
          [⟨n, some (st.blocks ++ [colMeans (st.buffer ++ [Es])]),
              some (st.buffer_rs ++ [r])⟩])
      else
        (⟨st.dist_means.drop 1 ++ [d], true, st.buffer ++ [Es],
            st.buffer_rs ++ [r], st.blocks⟩, []) := by
  simp only [sampleWFStep, hc, Bool.not_true, Bool.false_and, Bool.true_or, if_true,
    if_false, Bool.false_eq_true, List.nil_append]

theorem sampleWFGo_calculating_mono {α : Type} (block_size : ℕ)
    (l : List (ℕ × α × ℚ × List ℚ)) :
    ∀ st : SampleWFState α, st.calculating = true →
      (sampleWFGo block_size l st).1.calculating = true := by
  induction l with
  | nil => intro st h; simpa [sampleWFGo] using h
  | cons p rest ih =>
      intro st h
      simp only [sampleWFGo]
      exact ih _ (by rw [sampleWFStep_calculating, h, Bool.true_or])

theorem sampleWFStep_countNone {α : Type} (block_size : ℕ) (st : SampleWFState α)
    (n : ℕ) (r : α) (d : ℚ) (Es : List ℚ) :
    ((sampleWFStep block_size st n r d Es).2.countP fun y => y.blocksSnapshot.isNone) =
      (sampleWFStep block_size st n r d Es).1.calculating.toNat -
        st.calculating.toNat := by
  cases hc : st.calculating
  · simp only [sampleWFStep, hc, Bool.not_false, Bool.true_and, Bool.false_or]
    cases ht : equilibriumTrigger block_size (st.dist_means.drop 1 ++ [d]) <;>
      simp <;> split <;> simp [List.countP_cons, List.countP_append]
  · rw [sampleWFStep_of_calculating _ _ hc]
    split <;> simp [List.countP_cons, hc]

theorem sampleWFGo_countNone {α : Type} (block_size : ℕ)
    (l : List (ℕ × α × ℚ × List ℚ)) :
    ∀ st : SampleWFState α,
      ((sampleWFGo block_size l st).2.countP fun y => y.blocksSnapshot.isNone) =
        (sampleWFGo block_size l st).1.calculating.toNat - st.calculating.toNat := by
  induction l with
  | nil => intro st; simp [sampleWFGo]
  | cons p rest ih =>
      intro st
      simp only [sampleWFGo, List.countP_append]
      rw [ih, sampleWFStep_countNone]
      have h1 : st.calculating = true →
          (sampleWFStep block_size st p.1 p.2.1 p.2.2.1 p.2.2.2).1.calculating = true := by
        intro h; rw [sampleWFStep_calculating, h, Bool.true_or]
      have h2 : (sampleWFStep block_size st p.1 p.2.1 p.2.2.1 p.2.2.2).1.calculating = true →
          (sampleWFGo block_size rest
            (sampleWFStep block_size st p.1 p.2.1 p.2.2.1 p.2.2.2).1).1.calculating = true :=
        sampleWFGo_calculating_mono block_size rest _
      cases ha : st.calculating <;>
        cases hb : (sampleWFStep block_size st p.1 p.2.1 p.2.2.1 p.2.2.2).1.calculating <;>
        cases hcc : (sampleWFGo block_size rest
            (sampleWFStep block_size st p.1 p.2.1 p.2.2.1 p.2.2.2).1).1.calculating <;>
        simp_all

/-- Invariant of the accumulation phase of `sample_wf` (lines 56–73): starting from a
state that is already accumulating, with fewer than `block_size` buffered values, the
loop commits the per-walker means of successive `block_size`-sized chunks of the fed
local-energy vectors, leaves the remainder buffered, emits exactly one commit yield per
chunk, and every commit yield's snapshot is the blocks committed up to some chunk
boundary. -/
theorem sampleWFGo_accum {α : Type} (block_size : ℕ) (hB : 0 < block_size)
    (l : List (ℕ × α × ℚ × List ℚ)) :
    ∀ st : SampleWFState α, st.calculating = true → st.buffer.length < block_size →
      (sampleWFGo block_size l st).1.blocks =
          st.blocks ++ blockMeans block_size (st.buffer ++ l.map fun p => p.2.2.2) ∧
      (sampleWFGo block_size l st).1.buffer =
          blockRemainder block_size (st.buffer ++ l.map fun p => p.2.2.2) ∧
      ((sampleWFGo block_size l st).2.countP fun y => y.blocksSnapshot.isSome) =
          (st.buffer ++ l.map fun p => p.2.2.2).length / block_size ∧
      ∀ y ∈ (sampleWFGo block_size l st).2, ∀ bs, y.blocksSnapshot = some bs →
          ∃ m, bs = st.blocks ++ blockMeans block_size
            ((st.buffer ++ l.map fun p => p.2.2.2).take (block_size * m)) := by
  induction l with
  | nil =>
      intro st hc hlen
      simp only [sampleWFGo, List.map_nil, List.append_nil]
      refine ⟨by rw [blockMeans_short _ _ hlen]; simp,
        by rw [blockRemainder_short _ _ hlen], ?_, ?_⟩
      · simp [Nat.div_eq_of_lt hlen]
      · intro y hy; simp at hy
  | cons p rest ih =>
      intro st hc hlen
      simp only [sampleWFGo, List.map_cons]
      rw [sampleWFStep_of_calculating _ st hc]
      have htot : st.buffer ++ p.2.2.2 :: List.map (fun p => p.2.2.2) rest =
          (st.buffer ++ [p.2.2.2]) ++ List.map (fun p => p.2.2.2) rest := by
        simp
      by_cases hfull : (st.buffer ++ [p.2.2.2]).length = block_size
      · rw [if_pos hfull]
        obtain ⟨ihb, ihf, ihc, ihy⟩ :=
          ih ⟨st.dist_means.drop 1 ++ [p.2.2.1], true, [], [],
                st.blocks ++ [colMeans (st.buffer ++ [p.2.2.2])]⟩ rfl (by simpa using hB)
        simp only [List.nil_append] at ihb ihf ihc ihy
        dsimp only
        refine ⟨?_, ?_, ?_, ?_⟩
        · rw [ihb, htot, blockMeans_chunk _ hB _ _ hfull]
          simp
        · rw [ihf, htot, blockRemainder_chunk _ hB _ _ hfull]
        · rw [List.countP_append, ihc, htot, List.length_append, hfull,
            List.countP_cons, List.countP_nil]
          simp only [Option.isSome_some, if_true]
          rw [Nat.add_comm block_size, Nat.add_div_right _ hB]
          omega
        · intro y hy bs hbs
          rcases List.mem_append.1 hy with hy | hy
          · rcases List.mem_singleton.1 hy with rfl
            simp only [Option.some.injEq] at hbs
            subst hbs
            refine ⟨1, ?_⟩
            rw [htot, Nat.mul_one, List.take_left' hfull, blockMeans_exact _ hB _ hfull]
          · obtain ⟨m, hm⟩ := ihy y hy bs hbs
            refine ⟨m + 1, ?_⟩
            have htake : (st.buffer ++ [p.2.2.2] ++ List.map (fun p => p.2.2.2) rest).take
                  (block_size * (m + 1)) =
                (st.buffer ++ [p.2.2.2]) ++
                  (List.map (fun p => p.2.2.2) rest).take (block_size * m) := by
              rw [Nat.mul_succ, Nat.add_comm (block_size * m) block_size, ← hfull,
                List.take_append]
            rw [hm, htot, htake, blockMeans_chunk _ hB _ _ hfull]
            simp
      · rw [if_neg hfull]
        have hlt : (st.buffer ++ [p.2.2.2]).length < block_size := by
          simp only [List.length_append, List.length_cons, List.length_nil] at hfull ⊢
          omega
        obtain ⟨ihb, ihf, ihc, ihy⟩ :=
          ih ⟨st.dist_means.drop 1 ++ [p.2.2.1], true, st.buffer ++ [p.2.2.2],
                st.buffer_rs ++ [p.2.1], st.blocks⟩ rfl hlt
        simp only [List.append_assoc, List.singleton_append] at ihb ihf ihc ihy
        exact ⟨ihb, ihf, by simpa using ihc, by simpa using ihy⟩

theorem enum_map_snd_comp {α β : Type} (l : List α) (f : α → β) :
    (l.enum.map fun p => f p.2) = l.map f := by
  have h : (l.enum.map fun p => f p.2) = (l.enum.map Prod.snd).map f := by
    rw [List.map_map]; rfl
  rw [h, List.enum_map_snd]

/-- C1 (amended): in `sample_wf` the warming-up → accumulating transition is declared
the first time the window is full (head entry positive) and the standard deviation of
the **oldest** `block_size` entries is strictly *smaller* than that of the **newest**
`block_size` entries (the code's line 53 compares `dist_means[:block_size].std() <
dist_means[-block_size:].std()`, oldest below newest — the reverse of the claimed
direction); the transition is signalled by exactly one `(step, None, None)` yield iff it
is ever taken (so at most once per run), and once taken it never reverts.  The three
conjuncts: (i) the number of transition yields over a whole run equals 1 iff the run
ends in the accumulating state (hence is at most one); (ii) from any accumulating state
the flag stays true over any further input sequence; (iii) a step taken in the
warming-up state sets the flag exactly when `equilibriumTrigger` holds of the shifted
window. -/
theorem equilibration_one_way {α : Type} (block_size : ℕ)
    (inputs : List (α × ℚ × List ℚ)) :
    (((sampleWFRun block_size true inputs).2.countP
        fun y => y.blocksSnapshot.isNone) =
      (sampleWFRun block_size true inputs).1.calculating.toNat) ∧
    (∀ (l : List (ℕ × α × ℚ × List ℚ)) (st : SampleWFState α),
      st.calculating = true → (sampleWFGo block_size l st).1.calculating = true) ∧
    (∀ (st : SampleWFState α) (n : ℕ) (r : α) (d : ℚ) (Es : List ℚ),
      st.calculating = false →
      (sampleWFStep block_size st n r d Es).1.calculating =
        equilibriumTrigger block_size (st.dist_means.drop 1 ++ [d])) := by
  refine ⟨?_, fun l st h => sampleWFGo_calculating_mono block_size l st h, ?_⟩
  · rw [sampleWFRun, sampleWFGo_countNone]
    simp [sampleWFInit]
  · intro st n r d Es h
    rw [sampleWFStep_calculating, h, Bool.false_or]

/-- Witness for `equilibration_one_way`: a run over the distance summaries
`3,3,1,1,1,1,1,1,1,5` (oldest pair spread 0, newest pair spread 8 when the window is
full) transitions exactly once; the per-step characterizations are instantiated at
concrete states. -/
theorem equilibration_one_way_witness :
    (((sampleWFRun 2 true
        ([((), 3, []), ((), 3, []), ((), 1, []), ((), 1, []), ((), 1, []), ((), 1, []),
          ((), 1, []), ((), 1, []), ((), 1, []), ((), 5, [])] :
          List (Unit × ℚ × List ℚ))).2.countP
        fun y => y.blocksSnapshot.isNone) = 1) ∧
    (sampleWFGo 2 [] (⟨[], true, [], [], []⟩ : SampleWFState Unit)).1.calculating
        = true ∧
    (sampleWFStep 2 (⟨[3, 3, 1, 1, 1, 1, 1, 1, 1, 1], false, [], [], []⟩ :
        SampleWFState Unit) 9 () 5 []).1.calculating = true := by
  refine ⟨?_, ?_, ?_⟩
  · have e0 : sampleWFStep 2 (⟨[0, 0, 0, 0, 0, 0, 0, 0, 0, 0], false, [], [], []⟩ :
        SampleWFState Unit) 0 () 3 []
        = (⟨[0, 0, 0, 0, 0, 0, 0, 0, 0, 3], false, [], [], []⟩, []) := by
      norm_num [sampleWFStep, equilibriumTrigger]
    have e1 : sampleWFStep 2 (⟨[0, 0, 0, 0, 0, 0, 0, 0, 0, 3], false, [], [], []⟩ :
        SampleWFState Unit) 1 () 3 []
        = (⟨[0, 0, 0, 0, 0, 0, 0, 0, 3, 3], false, [], [], []⟩, []) := by
      norm_num [sampleWFStep, equilibriumTrigger]
    have e2 : sampleWFStep 2 (⟨[0, 0, 0, 0, 0, 0, 0, 0, 3, 3], false, [], [], []⟩ :
        SampleWFState Unit) 2 () 1 []
        = (⟨[0, 0, 0, 0, 0, 0, 0, 3, 3, 1], false, [], [], []⟩, []) := by
      norm_num [sampleWFStep, equilibriumTrigger]
    have e3 : sampleWFStep 2 (⟨[0, 0, 0, 0, 0, 0, 0, 3, 3, 1], false, [], [], []⟩ :
        SampleWFState Unit) 3 () 1 []
        = (⟨[0, 0, 0, 0, 0, 0, 3, 3, 1, 1], false, [], [], []⟩, []) := by
      norm_num [sampleWFStep, equilibriumTrigger]
    have e4 : sampleWFStep 2 (⟨[0, 0, 0, 0, 0, 0, 3, 3, 1, 1], false, [], [], []⟩ :
        SampleWFState Unit) 4 () 1 []
        = (⟨[0, 0, 0, 0, 0, 3, 3, 1, 1, 1], false, [], [], []⟩, []) := by
      norm_num [sampleWFStep, equilibriumTrigger]
    have e5 : sampleWFStep 2 (⟨[0, 0, 0, 0, 0, 3, 3, 1, 1, 1], false, [], [], []⟩ :
        SampleWFState Unit) 5 () 1 []
        = (⟨[0, 0, 0, 0, 3, 3, 1, 1, 1, 1], false, [], [], []⟩, []) := by
      norm_num [sampleWFStep, equilibriumTrigger]
    have e6 : sampleWFStep 2 (⟨[0, 0, 0, 0, 3, 3, 1, 1, 1, 1], false, [], [], []⟩ :
        SampleWFState Unit) 6 () 1 []
        = (⟨[0, 0, 0, 3, 3, 1, 1, 1, 1, 1], false, [], [], []⟩, []) := by
      norm_num [sampleWFStep, equilibriumTrigger]
    have e7 : sampleWFStep 2 (⟨[0, 0, 0, 3, 3, 1, 1, 1, 1, 1], false, [], [], []⟩ :
        SampleWFState Unit) 7 () 1 []
        = (⟨[0, 0, 3, 3, 1, 1, 1, 1, 1, 1], false, [], [], []⟩, []) := by
      norm_num [sampleWFStep, equilibriumTrigger]
    have e8 : sampleWFStep 2 (⟨[0, 0, 3, 3, 1, 1, 1, 1, 1, 1], false, [], [], []⟩ :
        SampleWFState Unit) 8 () 1 []
        = (⟨[0, 3, 3, 1, 1, 1, 1, 1, 1, 1], false, [], [], []⟩, []) := by
      norm_num [sampleWFStep, equilibriumTrigger]
    have e9 : sampleWFStep 2 (⟨[0, 3, 3, 1, 1, 1, 1, 1, 1, 1], false, [], [], []⟩ :
        SampleWFState Unit) 9 () 5 []
        = (⟨[3, 3, 1, 1, 1, 1, 1, 1, 1, 5], true, [[]], [()], []⟩,
            [⟨9, none, none⟩]) := by
      norm_num [sampleWFStep, equilibriumTrigger, sampleVar, listMean]
    have hrun : sampleWFRun 2 true
        ([((), 3, []), ((), 3, []), ((), 1, []), ((), 1, []), ((), 1, []), ((), 1, []),
          ((), 1, []), ((), 1, []), ((), 1, []), ((), 5, [])] :
          List (Unit × ℚ × List ℚ)) =
        (⟨[3, 3, 1, 1, 1, 1, 1, 1, 1, 5], true, [[]], [()], []⟩,
          [⟨9, none, none⟩]) := by
      rw [sampleWFRun,
        show ([((), 3, []), ((), 3, []), ((), 1, []), ((), 1, []), ((), 1, []),
            ((), 1, []), ((), 1, []), ((), 1, []), ((), 1, []), ((), 5, [])] :
            List (Unit × ℚ × List ℚ)).enum =
          [(0, (), 3, []), (1, (), 3, []), (2, (), 1, []), (3, (), 1, []),
            (4, (), 1, []), (5, (), 1, []), (6, (), 1, []), (7, (), 1, []),
            (8, (), 1, []), (9, (), 5, [])] from rfl,
        show (sampleWFInit 2 true : SampleWFState Unit) =
          ⟨[0, 0, 0, 0, 0, 0, 0, 0, 0, 0], false, [], [], []⟩ from rfl]
      simp only [sampleWFGo, e0, e1, e2, e3, e4, e5, e6, e7, e8, e9,
        List.nil_append, List.append_nil]
    rw [(equilibration_one_way 2
      ([((), 3, []), ((), 3, []), ((), 1, []), ((), 1, []), ((), 1, []), ((), 1, []),
        ((), 1, []), ((), 1, []), ((), 1, []), ((), 5, [])] :
        List (Unit × ℚ × List ℚ))).1, hrun]
    rfl
  · exact (equilibration_one_way (α := Unit) 2 []).2.1 [] _ rfl
  · rw [(equilibration_one_way (α := Unit) 2 []).2.2 _ 9 () 5 [] rfl]
    norm_num [equilibriumTrigger, sampleVar, listMean]

/-- Counterexample to C1 as stated: a run over the distance summaries
`1,5,1,1,1,1,1,1,3,3`.  At the last step the window is full (positive head) and the
standard deviation of the **newest** two entries (`[3,3]`, std 0) is strictly smaller
than that of the **oldest** two (`[1,5]`, std `√8`) — the claimed trigger — yet the run
never declares equilibrium: no `(step, None, None)` is ever yielded and the final flag
is still warming-up. -/
theorem equilibration_direction_counterexample :
    ((sampleWFRun 2 true
        ([((), 1, []), ((), 5, []), ((), 1, []), ((), 1, []), ((), 1, []), ((), 1, []),
          ((), 1, []), ((), 1, []), ((), 3, []), ((), 3, [])] :
          List (Unit × ℚ × List ℚ))).1.calculating = false) ∧
    ((sampleWFRun 2 true
        ([((), 1, []), ((), 5, []), ((), 1, []), ((), 1, []), ((), 1, []), ((), 1, []),
          ((), 1, []), ((), 1, []), ((), 3, []), ((), 3, [])] :
          List (Unit × ℚ × List ℚ))).2 = []) ∧
    ((sampleWFRun 2 true
        ([((), 1, []), ((), 5, []), ((), 1, []), ((), 1, []), ((), 1, []), ((), 1, []),
          ((), 1, []), ((), 1, []), ((), 3, []), ((), 3, [])] :
          List (Unit × ℚ × List ℚ))).1.dist_means = [1, 5, 1, 1, 1, 1, 1, 1, 3, 3]) ∧
    (0 < ([1, 5, 1, 1, 1, 1, 1, 1, 3, 3] : List ℚ).headI) ∧
    Real.sqrt (sampleVar (([1, 5, 1, 1, 1, 1, 1, 1, 3, 3] : List ℚ).drop (4 * 2)) : ℝ) <
      Real.sqrt (sampleVar (([1, 5, 1, 1, 1, 1, 1, 1, 3, 3] : List ℚ).take 2) : ℝ) := by
  have e0 : sampleWFStep 2 (⟨[0, 0, 0, 0, 0, 0, 0, 0, 0, 0], false, [], [], []⟩ :
      SampleWFState Unit) 0 () 1 []
      = (⟨[0, 0, 0, 0, 0, 0, 0, 0, 0, 1], false, [], [], []⟩, []) := by
    norm_num [sampleWFStep, equilibriumTrigger]
  have e1 : sampleWFStep 2 (⟨[0, 0, 0, 0, 0, 0, 0, 0, 0, 1], false, [], [], []⟩ :
      SampleWFState Unit) 1 () 5 []
      = (⟨[0, 0, 0, 0, 0, 0, 0, 0, 1, 5], false, [], [], []⟩, []) := by
    norm_num [sampleWFStep, equilibriumTrigger]
  have e2 : sampleWFStep 2 (⟨[0, 0, 0, 0, 0, 0, 0, 0, 1, 5], false, [], [], []⟩ :
      SampleWFState Unit) 2 () 1 []
      = (⟨[0, 0, 0, 0, 0, 0, 0, 1, 5, 1], false, [], [], []⟩, []) := by
    norm_num [sampleWFStep, equilibriumTrigger]
  have e3 : sampleWFStep 2 (⟨[0, 0, 0, 0, 0, 0, 0, 1, 5, 1], false, [], [], []⟩ :
      SampleWFState Unit) 3 () 1 []
      = (⟨[0, 0, 0, 0, 0, 0, 1, 5, 1, 1], false, [], [], []⟩, []) := by
    norm_num [sampleWFStep, equilibriumTrigger]
  have e4 : sampleWFStep 2 (⟨[0, 0, 0, 0, 0, 0, 1, 5, 1, 1], false, [], [], []⟩ :
      SampleWFState Unit) 4 () 1 []
      = (⟨[0, 0, 0, 0, 0, 1, 5, 1, 1, 1], false, [], [], []⟩, []) := by
    norm_num [sampleWFStep, equilibriumTrigger]
  have e5 : sampleWFStep 2 (⟨[0, 0, 0, 0, 0, 1, 5, 1, 1, 1], false, [], [], []⟩ :
      SampleWFState Unit) 5 () 1 []
      = (⟨[0, 0, 0, 0, 1, 5, 1, 1, 1, 1], false, [], [], []⟩, []) := by
    norm_num [sampleWFStep, equilibriumTrigger]
  have e6 : sampleWFStep 2 (⟨[0, 0, 0, 0, 1, 5, 1, 1, 1, 1], false, [], [], []⟩ :
      SampleWFState Unit) 6 () 1 []
      = (⟨[0, 0, 0, 1, 5, 1, 1, 1, 1, 1], false, [], [], []⟩, []) := by
    norm_num [sampleWFStep, equilibriumTrigger]
  have e7 : sampleWFStep 2 (⟨[0, 0, 0, 1, 5, 1, 1, 1, 1, 1], false, [], [], []⟩ :
      SampleWFState Unit) 7 () 1 []
      = (⟨[0, 0, 1, 5, 1, 1, 1, 1, 1, 1], false, [], [], []⟩, []) := by
    norm_num [sampleWFStep, equilibriumTrigger]
  have e8 : sampleWFStep 2 (⟨[0, 0, 1, 5, 1, 1, 1, 1, 1, 1], false, [], [], []⟩ :
      SampleWFState Unit) 8 () 3 []
      = (⟨[0, 1, 5, 1, 1, 1, 1, 1, 1, 3], false, [], [], []⟩, []) := by
    norm_num [sampleWFStep, equilibriumTrigger]
  have e9 : sampleWFStep 2 (⟨[0, 1, 5, 1, 1, 1, 1, 1, 1, 3], false, [], [], []⟩ :
      SampleWFState Unit) 9 () 3 []
      = (⟨[1, 5, 1, 1, 1, 1, 1, 1, 3, 3], false, [], [], []⟩, []) := by
    norm_num [sampleWFStep, equilibriumTrigger, sampleVar, listMean]
  have hrun : sampleWFRun 2 true
      ([((), 1, []), ((), 5, []), ((), 1, []), ((), 1, []), ((), 1, []), ((), 1, []),
        ((), 1, []), ((), 1, []), ((), 3, []), ((), 3, [])] :
        List (Unit × ℚ × List ℚ)) =
      (⟨[1, 5, 1, 1, 1, 1, 1, 1, 3, 3], false, [], [], []⟩, []) := by
    rw [sampleWFRun,
      show ([((), 1, []), ((), 5, []), ((), 1, []), ((), 1, []), ((), 1, []),
          ((), 1, []), ((), 1, []), ((), 1, []), ((), 3, []), ((), 3, [])] :
          List (Unit × ℚ × List ℚ)).enum =
        [(0, (), 1, []), (1, (), 5, []), (2, (), 1, []), (3, (), 1, []),
          (4, (), 1, []), (5, (), 1, []), (6, (), 1, []), (7, (), 1, []),
          (8, (), 3, []), (9, (), 3, [])] from rfl,
      show (sampleWFInit 2 true : SampleWFState Unit) =
        ⟨[0, 0, 0, 0, 0, 0, 0, 0, 0, 0], false, [], [], []⟩ from rfl]
    simp only [sampleWFGo, e0, e1, e2, e3, e4, e5, e6, e7, e8, e9,
      List.nil_append, List.append_nil]
  refine ⟨by rw [hrun], by rw [hrun], by rw [hrun], by norm_num, ?_⟩
  rw [sqrt_sampleVar_lt_iff]
  norm_num [sampleVar, listMean]

/-- C2 (amended): every time `sample_wf` commits a block it recomputes the yielded
estimate from the full sequence of committed blocks, where the blocks are the per-walker
means of the successive `block_size`-sized chunks of the accumulated local energies.
Conjuncts, for a run with `equilibrate=False` (accumulating from the start): (i) the
final committed blocks are exactly the chunk means of all fed local-energy vectors;
(ii) one estimate is yielded per commit; (iii) every yielded snapshot is the blocks
committed up to some chunk boundary.  The estimate computed from a snapshot `bs` is
`energyNominal bs` with standard deviation `energyErr bs` — which divides the population
standard deviation *over walkers* of the per-walker mean block value by the square root
of the *walker count*, not the standard deviation of the block means by the square root
of the block count (see `energy_err_formula_counterexample`). -/
theorem energy_estimate_from_blocks {α : Type} (block_size : ℕ) (hB : 0 < block_size)
    (inputs : List (α × ℚ × List ℚ)) :
    ((sampleWFRun block_size false inputs).1.blocks =
        blockMeans block_size (inputs.map fun p => p.2.2)) ∧
    (((sampleWFRun block_size false inputs).2.countP
        fun y => y.blocksSnapshot.isSome) = inputs.length / block_size) ∧
    (∀ y ∈ (sampleWFRun block_size false inputs).2, ∀ bs, y.blocksSnapshot = some bs →
        ∃ m, bs = blockMeans block_size
          ((inputs.map fun p => p.2.2).take (block_size * m))) := by
  have hmap : (inputs.enum.map fun p => p.2.2.2) = inputs.map fun p => p.2.2 :=
    enum_map_snd_comp inputs fun q => q.2.2
  obtain ⟨hb, hf, hcnt, hy⟩ := sampleWFGo_accum block_size hB inputs.enum
    (sampleWFInit block_size false) rfl (by simpa [sampleWFInit] using hB)
  rw [sampleWFRun]
  simp only [sampleWFInit, List.nil_append] at hb hf hcnt hy
  rw [hmap] at hb hcnt hy
  simp only [sampleWFInit]
  refine ⟨hb, ?_, hy⟩
  rw [hcnt, List.length_map]

/-- Witness for `energy_estimate_from_blocks`: a single-walker run with `block_size = 2`
fed the four local energies `0, 0, 2, 2` commits the chunk means and yields twice. -/
theorem energy_estimate_from_blocks_witness :
    ((sampleWFRun 2 false
        ([((), 1, [0]), ((), 1, [0]), ((), 1, [2]), ((), 1, [2])] :
          List (Unit × ℚ × List ℚ))).1.blocks =
      blockMeans 2 [[0], [0], [2], [2]]) ∧
    (((sampleWFRun 2 false
        ([((), 1, [0]), ((), 1, [0]), ((), 1, [2]), ((), 1, [2])] :
          List (Unit × ℚ × List ℚ))).2.countP
        fun y => y.blocksSnapshot.isSome) = 2) := by
  have h := energy_estimate_from_blocks 2 (by norm_num)
    ([((), 1, [0]), ((), 1, [0]), ((), 1, [2]), ((), 1, [2])] :
      List (Unit × ℚ × List ℚ))
  exact ⟨h.1, h.2.1⟩

/-- Counterexample to C2 as stated: on a single-walker (`W = 1`) run with
`block_size = 2` fed local energies `0, 0, 2, 2`, the committed blocks are `[0]` and
`[2]`.  The code's yielded standard deviation (`energyErr`, lines 69–71) is
`std([(0+2)/2]) / √1 = 0` — the divisor is `len(blocks_arr)`, the walker count — while
the claimed formula (`energyErrSpec`, std of the block means over the square root of the
block count) gives `std([0,2]) / √2 = 1/√2 ≠ 0`. -/
theorem energy_err_formula_counterexample :
    ((sampleWFRun 2 false
        ([((), 1, [0]), ((), 1, [0]), ((), 1, [2]), ((), 1, [2])] :
          List (Unit × ℚ × List ℚ))).1.blocks = [[0], [2]]) ∧
    ((⟨3, some [[0], [2]], some [(), ()]⟩ : SampleWFYield Unit) ∈
      (sampleWFRun 2 false
        ([((), 1, [0]), ((), 1, [0]), ((), 1, [2]), ((), 1, [2])] :
          List (Unit × ℚ × List ℚ))).2) ∧
    energyErr [[0], [2]] = 0 ∧
    energyErrSpec [[0], [2]] ≠ 0 := by
  have e0 : sampleWFStep 2 (⟨[0, 0, 0, 0, 0, 0, 0, 0, 0, 0], true, [], [], []⟩ :
      SampleWFState Unit) 0 () 1 [0]
      = (⟨[0, 0, 0, 0, 0, 0, 0, 0, 0, 1], true, [[0]], [()], []⟩, []) := by
    norm_num [sampleWFStep, equilibriumTrigger]
  have e1 : sampleWFStep 2 (⟨[0, 0, 0, 0, 0, 0, 0, 0, 0, 1], true, [[0]], [()], []⟩ :
      SampleWFState Unit) 1 () 1 [0]
      = (⟨[0, 0, 0, 0, 0, 0, 0, 0, 1, 1], true, [], [], [[0]]⟩,
          [⟨1, some [[0]], some [(), ()]⟩]) := by
    norm_num [sampleWFStep, equilibriumTrigger, colMeans, listMean,
      List.range_succ, List.range_zero, List.getD]
  have e2 : sampleWFStep 2 (⟨[0, 0, 0, 0, 0, 0, 0, 0, 1, 1], true, [], [], [[0]]⟩ :
      SampleWFState Unit) 2 () 1 [2]
      = (⟨[0, 0, 0, 0, 0, 0, 0, 1, 1, 1], true, [[2]], [()], [[0]]⟩, []) := by
    norm_num [sampleWFStep, equilibriumTrigger]
  have e3 : sampleWFStep 2 (⟨[0, 0, 0, 0, 0, 0, 0, 1, 1, 1], true, [[2]], [()], [[0]]⟩ :
      SampleWFState Unit) 3 () 1 [2]
      = (⟨[0, 0, 0, 0, 0, 0, 1, 1, 1, 1], true, [], [], [[0], [2]]⟩,
          [⟨3, some [[0], [2]], some [(), ()]⟩]) := by
    norm_num [sampleWFStep, equilibriumTrigger, colMeans, listMean,
      List.range_succ, List.range_zero, List.getD]
  have hrun : sampleWFRun 2 false
      ([((), 1, [0]), ((), 1, [0]), ((), 1, [2]), ((), 1, [2])] :
        List (Unit × ℚ × List ℚ)) =
      (⟨[0, 0, 0, 0, 0, 0, 1, 1, 1, 1], true, [], [], [[0], [2]]⟩,
        [⟨1, some [[0]], some [(), ()]⟩, ⟨3, some [[0], [2]], some [(), ()]⟩]) := by
    rw [sampleWFRun,
      show ([((), 1, [0]), ((), 1, [0]), ((), 1, [2]), ((), 1, [2])] :
          List (Unit × ℚ × List ℚ)).enum =
        [(0, (), 1, [0]), (1, (), 1, [0]), (2, (), 1, [2]), (3, (), 1, [2])] from rfl,
      show (sampleWFInit 2 false : SampleWFState Unit) =
        ⟨[0, 0, 0, 0, 0, 0, 0, 0, 0, 0], true, [], [], []⟩ from rfl]
    simp only [sampleWFGo, e0, e1, e2, e3, List.nil_append, List.append_nil,
      List.singleton_append, List.cons_append]
  refine ⟨by rw [hrun], by rw [hrun]; simp, ?_, ?_⟩
  · have hv : popVar (colMeans [[0], [2]]) = 0 := by
      norm_num [popVar, colMeans, listMean, List.range_succ, List.range_zero, List.getD]
    rw [energyErr, hv]
    simp
  · have hv : popVar ((([[0], [2]] : List (List ℚ)).map listMean)) = 1 := by
      norm_num [popVar, listMean]
    rw [energyErrSpec, hv]
    have h2 : Real.sqrt 2 ≠ 0 := by
      rw [Real.sqrt_ne_zero']
      norm_num
    simp only [Rat.cast_one, Real.sqrt_one, List.length_cons, List.length_nil]
    norm_num [h2]

/-- C9: the block accumulator of `sample_wf` (lines 56–67), fed exactly
`k·block_size` local-energy values after accumulation has started, commits exactly `k`
blocks and leaves the buffer empty; fed `k·block_size + r` values with
`0 < r < block_size`, it commits exactly `k` blocks and leaves exactly `r` values
buffered. -/
theorem block_commit_law {α : Type} (block_size k r : ℕ) (hB : 0 < block_size)
    (inputs : List (α × ℚ × List ℚ)) :
    (inputs.length = k * block_size →
      (sampleWFRun block_size false inputs).1.blocks.length = k ∧
      (sampleWFRun block_size false inputs).1.buffer = []) ∧
    (inputs.length = k * block_size + r → 0 < r → r < block_size →
      (sampleWFRun block_size false inputs).1.blocks.length = k ∧
      (sampleWFRun block_size false inputs).1.buffer.length = r) := by
  obtain ⟨hb, hf, _, _⟩ := sampleWFGo_accum block_size hB inputs.enum
    (sampleWFInit block_size false) rfl (by simpa [sampleWFInit] using hB)
  have hmap : (inputs.enum.map fun p => p.2.2.2) = inputs.map fun p => p.2.2 :=
    enum_map_snd_comp inputs fun q => q.2.2
  simp only [sampleWFInit, List.nil_append] at hb hf
  rw [hmap] at hb hf
  have hlen : (inputs.map fun p => p.2.2).length = inputs.length := List.length_map _ _
  constructor
  · intro h
    constructor
    · rw [sampleWFRun]
      simp only [sampleWFInit]
      rw [hb, blockMeans_length _ hB, hlen, h, Nat.mul_div_cancel _ hB]
    · rw [sampleWFRun]
      simp only [sampleWFInit]
      rw [hf]
      have : (blockRemainder block_size (inputs.map fun p => p.2.2)).length = 0 := by
        rw [blockRemainder_length _ hB, hlen, h, Nat.mul_mod_left]
      exact List.length_eq_zero.1 this
  · intro h hr hrB
    constructor
    · rw [sampleWFRun]
      simp only [sampleWFInit]
      rw [hb, blockMeans_length _ hB, hlen, h, Nat.add_comm,
        Nat.add_mul_div_right _ _ hB, Nat.div_eq_of_lt hrB, Nat.zero_add]
    · rw [sampleWFRun]
      simp only [sampleWFInit]
      rw [hf, blockRemainder_length _ hB, hlen, h, Nat.mul_comm k block_size,
        Nat.mul_add_mod, Nat.mod_eq_of_lt hrB]

/-- Witness for `block_commit_law`: with `block_size = 2`, two fed values commit one
block with nothing buffered, and three fed values commit one block with one value
buffered. -/
theorem block_commit_law_witness :
    ((sampleWFRun 2 false ([((), 1, [1]), ((), 1, [2])] :
        List (Unit × ℚ × List ℚ))).1.blocks.length = 1 ∧
      (sampleWFRun 2 false ([((), 1, [1]), ((), 1, [2])] :
        List (Unit × ℚ × List ℚ))).1.buffer = []) ∧
    ((sampleWFRun 2 false ([((), 1, [1]), ((), 1, [2]), ((), 1, [5])] :
        List (Unit × ℚ × List ℚ))).1.blocks.length = 1 ∧
      (sampleWFRun 2 false ([((), 1, [1]), ((), 1, [2]), ((), 1, [5])] :
        List (Unit × ℚ × List ℚ))).1.buffer.length = 1) :=
  ⟨(block_commit_law 2 1 1 (by norm_num)
      ([((), 1, [1]), ((), 1, [2])] : List (Unit × ℚ × List ℚ))).1 rfl,
    (block_commit_law 2 1 1 (by norm_num)
      ([((), 1, [1]), ((), 1, [2]), ((), 1, [5])] :
        List (Unit × ℚ × List ℚ))).2 rfl (by norm_num) (by norm_num)⟩

theorem assign_where_pos {W : ℕ} (target source : Fin W → ℝ) (mask : Fin W → Prop)
    (i : Fin W) (h : mask i) : assign_where target source mask i = source i := by
  simp [assign_where, h]

theorem assign_where_neg {W : ℕ} (target source : Fin W → ℝ) (mask : Fin W → Prop)
    (i : Fin W) (h : ¬ mask i) : assign_where target source mask i = target i := by
  simp [assign_where, h]

open Classical in
theorem stepCommit_spec {W : ℕ} (s : Sampler W)
    (rsCand Ps_acc log_psis sign_psis : Fin W → ℝ)
    (extraForces : Option (Fin W → ℝ)) (u : Fin W → ℝ) (i : Fin W) :
    ((stepCommit s rsCand Ps_acc log_psis sign_psis extraForces u).1.rs i =
      if acceptedMask s Ps_acc log_psis u i then rsCand i else s.rs i) ∧
    ((stepCommit s rsCand Ps_acc log_psis sign_psis extraForces u).1.log_psis i =
      if acceptedMask s Ps_acc log_psis u i then log_psis i else s.log_psis i) ∧
    ((stepCommit s rsCand Ps_acc log_psis sign_psis extraForces u).1.sign_psis i =
      if acceptedMask s Ps_acc log_psis u i then sign_psis i else s.sign_psis i) ∧
    ((stepCommit s rsCand Ps_acc log_psis sign_psis extraForces u).1.forces i =
      match extraForces with
      | none => s.forces i
      | some f => if acceptedMask s Ps_acc log_psis u i then f i else s.forces i) ∧
    ((stepCommit s rsCand Ps_acc log_psis sign_psis extraForces u).1.ages i =
      if acceptedMask s Ps_acc log_psis u i then 0 else s.ages i + 1) ∧
    ((stepCommit s rsCand Ps_acc log_psis sign_psis extraForces u).2.acceptance =
      (∑ j, if acceptedMask s Ps_acc log_psis u j then (1 : ℝ) else 0) / W) ∧
    ((stepCommit s rsCand Ps_acc log_psis sign_psis extraForces u).1.tau =
      if s.target_acceptance ≠ 0 then
        s.tau / (s.target_acceptance /
          max ((stepCommit s rsCand Ps_acc log_psis sign_psis extraForces u).2.acceptance)
            0.05)
      else s.tau) ∧
    ((stepCommit s rsCand Ps_acc log_psis sign_psis extraForces u).1.target_acceptance =
      s.target_acceptance) := by
  by_cases h : acceptedMask s Ps_acc log_psis u i
  · refine ⟨?_, ?_, ?_, ?_, ?_, ?_, ?_, ?_⟩ <;> cases extraForces <;>
      simp [stepCommit, assign_where_pos _ _ _ _ h, h]
  · refine ⟨?_, ?_, ?_, ?_, ?_, ?_, ?_, ?_⟩ <;> cases extraForces <;>
      simp [stepCommit, assign_where_neg _ _ _ _ h, h]

open Classical in
theorem stepCommit_acceptance {W : ℕ} (s : Sampler W)
    (rsCand Ps_acc log_psis sign_psis : Fin W → ℝ)
    (extraForces : Option (Fin W → ℝ)) (u : Fin W → ℝ) :
    (stepCommit s rsCand Ps_acc log_psis sign_psis extraForces u).2.acceptance =
      (∑ j, if acceptedMask s Ps_acc log_psis u j then (1 : ℝ) else 0) / W := by
  simp [stepCommit]

open Classical in
theorem stepCommit_tau {W : ℕ} (s : Sampler W)
    (rsCand Ps_acc log_psis sign_psis : Fin W → ℝ)
    (extraForces : Option (Fin W → ℝ)) (u : Fin W → ℝ) :
    (stepCommit s rsCand Ps_acc log_psis sign_psis extraForces u).1.tau =
      if s.target_acceptance ≠ 0 then
        s.tau / (s.target_acceptance /
          max ((stepCommit s rsCand Ps_acc log_psis sign_psis extraForces u).2.acceptance)
            0.05)
      else s.tau := by
  simp [stepCommit]

/-- C5: for every walker batch and every completed `step()` (here the Langevin variant,
whose shared body also covers the Metropolis one and additionally commits the `forces`
extra variable): a rejected walker retains positions, log-amplitude, sign and force
bit-identical to the pre-step values with its age incremented by exactly 1; an accepted
walker's fields equal the candidate's values with its age reset; and the age becomes 0
iff the walker was accepted this step. -/
theorem step_frame_and_age {W : ℕ}
    (quantum_force : (Fin W → ℝ) →
      Except (LUFactError W) ((Fin W → ℝ) × (Fin W → ℝ) × (Fin W → ℝ)))
    (clean_force : (Fin W → ℝ) → (Fin W → ℝ) → ℝ → Fin W → ℝ)
    (noise u : Fin W → ℝ) (s : Sampler W)
    (Ps_acc log_psis sign_psis forces : Fin W → ℝ)
    (hacc : LangevinSampler.acceptance_prob quantum_force clean_force s
        (LangevinSampler.proposal s noise) = .ok (Ps_acc, log_psis, sign_psis, forces))
    (s1 : Sampler W) (info : StepInfo W)
    (hstep : LangevinSampler.step quantum_force clean_force noise u s
        = .ok (s1, info)) (i : Fin W) :
    (¬ acceptedMask s Ps_acc log_psis u i →
      s1.rs i = s.rs i ∧ s1.log_psis i = s.log_psis i ∧
      s1.sign_psis i = s.sign_psis i ∧ s1.forces i = s.forces i ∧
      s1.ages i = s.ages i + 1) ∧
    (acceptedMask s Ps_acc log_psis u i →
      s1.rs i = LangevinSampler.proposal s noise i ∧
      s1.log_psis i = log_psis i ∧ s1.sign_psis i = sign_psis i ∧
      s1.forces i = forces i ∧ s1.ages i = 0) ∧
    (s1.ages i = 0 ↔ acceptedMask s Ps_acc log_psis u i) := by
  have h1 : s1 = (stepCommit s (LangevinSampler.proposal s noise) Ps_acc log_psis
      sign_psis (some forces) u).1 := by
    simp only [LangevinSampler.step, hacc] at hstep
    exact (congrArg Prod.fst (Except.ok.inj hstep)).symm
  obtain ⟨hrs, hlog, hsign, hforce, hages, -⟩ :=
    stepCommit_spec s (LangevinSampler.proposal s noise) Ps_acc log_psis sign_psis
      (some forces) u i
  subst h1
  by_cases h : acceptedMask s Ps_acc log_psis u i
  · rw [hrs, hlog, hsign, hages, if_pos h, if_pos h, if_pos h, if_pos h]
    simp only [if_pos h] at hforce
    exact ⟨fun hc => absurd h hc, fun _ => ⟨rfl, rfl, rfl, hforce, rfl⟩,
      iff_of_true rfl h⟩
  · rw [hrs, hlog, hsign, hages, if_neg h, if_neg h, if_neg h, if_neg h]
    simp only [if_neg h] at hforce
    exact ⟨fun _ => ⟨rfl, rfl, rfl, hforce, rfl⟩, fun hc => absurd hc h,
      iff_of_false (Nat.succ_ne_zero _) h⟩

/-- Witness for `step_frame_and_age`: a one-walker Langevin step with a trivial force
oracle and a uniform draw of 0 accepts the walker (its acceptance probability,
`exp 0 = 1`, is positive): the age resets from 5 to 0, the force takes the candidate
value 0 and the position takes the proposal value `0 + 0·1 + 0·√1 = 0`. -/
theorem step_frame_and_age_witness :
    ((LangevinSampler.step (fun _ => .ok (fun _ => 0, fun _ => 0, fun _ => 1))
        (fun f _ _ => f) (fun _ => 0) (fun _ => 0)
        (⟨fun _ => 0, fun _ => 0, fun _ => 1, fun _ => 0, fun _ => 5, 1, none, 0,
          none, 0, 0, 0, 0, 0⟩ : Sampler 1)).toOption.map
      fun p => (p.1.ages 0, p.1.forces 0, p.1.rs 0)) = some (0, 0, 0) := by
  obtain ⟨Ps, hacc, hPs⟩ :
      ∃ Ps, LangevinSampler.acceptance_prob
          (fun _ => .ok (fun _ => 0, fun _ => 0, fun _ => 1)) (fun f _ _ => f)
          (⟨fun _ => 0, fun _ => 0, fun _ => 1, fun _ => 0, fun _ => 5, 1, none, 0,
            none, 0, 0, 0, 0, 0⟩ : Sampler 1)
          (LangevinSampler.proposal
            (⟨fun _ => 0, fun _ => 0, fun _ => 1, fun _ => 0, fun _ => 5, 1, none, 0,
              none, 0, 0, 0, 0, 0⟩ : Sampler 1) (fun _ => 0)) =
        .ok (Ps, fun _ => 0, fun _ => 1, fun _ => 0) ∧ 0 < Ps 0 :=
    ⟨_, rfl, Real.exp_pos _⟩
  obtain ⟨s1, info, hstep⟩ :
      ∃ s1 info, LangevinSampler.step
          (fun _ => .ok (fun _ => 0, fun _ => 0, fun _ => 1)) (fun f _ _ => f)
          (fun _ => 0) (fun _ => 0)
          (⟨fun _ => 0, fun _ => 0, fun _ => 1, fun _ => 0, fun _ => 5, 1, none, 0,
            none, 0, 0, 0, 0, 0⟩ : Sampler 1) = .ok (s1, info) := ⟨_, _, rfl⟩
  have h := step_frame_and_age _ _ _ _ _ _ _ _ _ hacc _ _ hstep (0 : Fin 1)
  have hmask : acceptedMask
      (⟨fun _ => 0, fun _ => 0, fun _ => 1, fun _ => 0, fun _ => 5, 1, none, 0,
        none, 0, 0, 0, 0, 0⟩ : Sampler 1) Ps (fun _ => 0) (fun _ => 0) (0 : Fin 1) := by
    simp only [acceptedMask]
    norm_num
    exact hPs
  obtain ⟨hr, hl, hsg, hf, ha⟩ := h.2.1 hmask
  rw [hstep]
  simp only [Except.toOption, Option.map]
  rw [ha, hf, hr]
  norm_num [LangevinSampler.proposal]

/-- C3 (amended): when a log-amplitude threshold is configured (and neither the max-age
forcing nor the initial always-accept phase applies), a walker is accepted — its age is
reset to 0 — iff either the Bernoulli draw accepted it AND its candidate log-amplitude
strictly exceeds the threshold, or its current log-amplitude is strictly below the
threshold AND the candidate strictly improves on it.  In particular a candidate at or
below the threshold is force-rejected unless the improving-from-below override holds,
and the override force-accepts even when the Bernoulli draw rejected (so a walker whose
candidate is above the threshold does not necessarily keep the draw's outcome, contrary
to the claim: see `threshold_override_counterexample`). -/
theorem threshold_override {W : ℕ}
    (wf : (Fin W → ℝ) → (Fin W → ℝ) × (Fin W → ℝ)) (noise u : Fin W → ℝ)
    (s : Sampler W) (thr : ℝ) (hthr : s.log_psi_threshold = some thr)
    (hage : s.max_age = none) (hfc : s.n_first_certain ≤ s.stepIdx) (i : Fin W) :
    ((MetropolisSampler.step wf noise u s).1.ages i = 0 ↔
      (((MetropolisSampler.acceptance_prob wf s
            (MetropolisSampler.proposal s noise)).1 i > u i ∧
          (wf (MetropolisSampler.proposal s noise)).1 i > thr) ∨
        (s.log_psis i < thr ∧
          (wf (MetropolisSampler.proposal s noise)).1 i > s.log_psis i))) ∧
    (((wf (MetropolisSampler.proposal s noise)).1 i ≤ thr ∧
        ¬(s.log_psis i < thr ∧
          (wf (MetropolisSampler.proposal s noise)).1 i > s.log_psis i)) →
      (MetropolisSampler.step wf noise u s).1.ages i = s.ages i + 1) ∧
    ((s.log_psis i < thr ∧
        (wf (MetropolisSampler.proposal s noise)).1 i > s.log_psis i) →
      (MetropolisSampler.step wf noise u s).1.ages i = 0) := by
  have hm : acceptedMask s
      (MetropolisSampler.acceptance_prob wf s (MetropolisSampler.proposal s noise)).1
      (MetropolisSampler.acceptance_prob wf s (MetropolisSampler.proposal s noise)).2.1
      u i ↔
      (((MetropolisSampler.acceptance_prob wf s
            (MetropolisSampler.proposal s noise)).1 i > u i ∧
          (wf (MetropolisSampler.proposal s noise)).1 i > thr) ∨
        (s.log_psis i < thr ∧
          (wf (MetropolisSampler.proposal s noise)).1 i > s.log_psis i)) := by
    simp only [acceptedMask, hthr, hage]
    rw [if_neg (not_lt.2 hfc)]
    exact Iff.rfl
  have hages : (MetropolisSampler.step wf noise u s).1.ages i =
      open Classical in
      if acceptedMask s
        (MetropolisSampler.acceptance_prob wf s
          (MetropolisSampler.proposal s noise)).1
        (MetropolisSampler.acceptance_prob wf s
          (MetropolisSampler.proposal s noise)).2.1 u i
      then 0 else s.ages i + 1 :=
    (stepCommit_spec s (MetropolisSampler.proposal s noise)
      (MetropolisSampler.acceptance_prob wf s (MetropolisSampler.proposal s noise)).1
      (MetropolisSampler.acceptance_prob wf s (MetropolisSampler.proposal s noise)).2.1
      (MetropolisSampler.acceptance_prob wf s (MetropolisSampler.proposal s noise)).2.2
      none u i).2.2.2.2.1
  refine ⟨?_, ?_, ?_⟩
  · rw [hages]
    by_cases h : acceptedMask s
        (MetropolisSampler.acceptance_prob wf s
          (MetropolisSampler.proposal s noise)).1
        (MetropolisSampler.acceptance_prob wf s
          (MetropolisSampler.proposal s noise)).2.1 u i
    · rw [if_pos h]
      exact iff_of_true rfl (hm.1 h)
    · rw [if_neg h]
      exact iff_of_false (Nat.succ_ne_zero _) fun hf => h (hm.2 hf)
  · intro ⟨hle, hnot⟩
    rw [hages, if_neg]
    intro h
    rcases hm.1 h with ⟨-, hgt⟩ | hover
    · exact absurd hgt (not_lt.2 hle)
    · exact hnot hover
  · intro hover
    rw [hages, if_pos (hm.2 (Or.inr hover))]

/-- Counterexample to C3 as stated: one walker, threshold 0, current log-amplitude
`-1/2`, candidate log-amplitude `1/2`, uniform draw `exp 2` — the Bernoulli draw
rejects (`P_acc = exp 2` is not `> exp 2`) and the candidate is *above* the threshold,
so by the claim the walker is in neither override case and must keep the draw's
rejection; but the code's override `(self.log_psis < thr) & (log_psis > self.log_psis)`
force-accepts it: its age is reset to 0. -/
theorem threshold_override_counterexample :
    (¬((MetropolisSampler.acceptance_prob (fun _ => (fun _ => 1 / 2, fun _ => 1))
        (⟨fun _ => 0, fun _ => -(1 / 2), fun _ => 1, fun _ => 0, fun _ => 0, 1, none,
          0, some 0, 0, 0, 0, 0, 0⟩ : Sampler 1)
        (MetropolisSampler.proposal
          (⟨fun _ => 0, fun _ => -(1 / 2), fun _ => 1, fun _ => 0, fun _ => 0, 1, none,
            0, some 0, 0, 0, 0, 0, 0⟩ : Sampler 1) (fun _ => 0))).1 0 >
      Real.exp 2)) ∧
    ((1 : ℝ) / 2 > 0) ∧
    (MetropolisSampler.step (fun _ => (fun _ => 1 / 2, fun _ => 1)) (fun _ => 0)
      (fun _ => Real.exp 2)
      (⟨fun _ => 0, fun _ => -(1 / 2), fun _ => 1, fun _ => 0, fun _ => 0, 1, none,
        0, some 0, 0, 0, 0, 0, 0⟩ : Sampler 1)).1.ages 0 = 0 := by
  refine ⟨?_, by norm_num, ?_⟩
  · simp only [MetropolisSampler.acceptance_prob]
    norm_num
  · exact (threshold_override (fun _ => (fun _ => 1 / 2, fun _ => 1)) (fun _ => 0)
      (fun _ => Real.exp 2)
      (⟨fun _ => 0, fun _ => -(1 / 2), fun _ => 1, fun _ => 0, fun _ => 0, 1, none,
        0, some 0, 0, 0, 0, 0, 0⟩ : Sampler 1) 0 rfl rfl (le_refl 0) 0).2.2
      ⟨by norm_num, by norm_num⟩

/-- Witness for `threshold_override`: one walker with threshold 0, current
log-amplitude `1` (above threshold) and candidate log-amplitude `-1` (below threshold):
the improving-from-below override does not apply, so the walker is force-rejected and
its age increments from 0 to 1 even though the Bernoulli draw (`P_acc = exp(-4) > 0`)
accepted it. -/
theorem threshold_override_witness :
    (MetropolisSampler.step (fun _ => (fun _ => -1, fun _ => 1)) (fun _ => 0)
      (fun _ => 0)
      (⟨fun _ => 0, fun _ => 1, fun _ => 1, fun _ => 0, fun _ => 0, 1, none, 0,
        some 0, 0, 0, 0, 0, 0⟩ : Sampler 1)).1.ages 0 = 0 + 1 :=
  (threshold_override (fun _ => (fun _ => -1, fun _ => 1)) (fun _ => 0) (fun _ => 0)
    (⟨fun _ => 0, fun _ => 1, fun _ => 1, fun _ => 0, fun _ => 0, 1, none, 0,
      some 0, 0, 0, 0, 0, 0⟩ : Sampler 1) 0 rfl rfl (le_refl 0) 0).2.1
    ⟨by norm_num, by norm_num⟩

/-- C4: after any `step()` with batch acceptance ratio `a` (as reported in the step's
`info`), if the target acceptance is non-zero (truthy) the new step size is exactly
`tau / (target / max(a, 0.05))` (lines 245–246); if the target is zero (falsy) the step
size is unchanged. -/
theorem tau_update {W : ℕ}
    (wf : (Fin W → ℝ) → (Fin W → ℝ) × (Fin W → ℝ)) (noise u : Fin W → ℝ)
    (s : Sampler W) :
    (s.target_acceptance ≠ 0 →
      (MetropolisSampler.step wf noise u s).1.tau =
        s.tau / (s.target_acceptance /
          max ((MetropolisSampler.step wf noise u s).2.acceptance) 0.05)) ∧
    (s.target_acceptance = 0 →
      (MetropolisSampler.step wf noise u s).1.tau = s.tau) := by
  have htau := stepCommit_tau s (MetropolisSampler.proposal s noise)
    (MetropolisSampler.acceptance_prob wf s (MetropolisSampler.proposal s noise)).1
    (MetropolisSampler.acceptance_prob wf s (MetropolisSampler.proposal s noise)).2.1
    (MetropolisSampler.acceptance_prob wf s (MetropolisSampler.proposal s noise)).2.2
    none u
  constructor
  · intro h
    simp only [MetropolisSampler.step]
    rw [htau, if_pos h]
  · intro h
    simp only [MetropolisSampler.step]
    rw [htau, if_neg (by simp [h])]

/-- Witness for `tau_update`: one walker with target acceptance `1/2`, prior step size
`1`, and an accepted move (acceptance ratio `1`): the new step size is
`1 / ((1/2) / max 1 0.05) = 2`. -/
theorem tau_update_witness :
    (MetropolisSampler.step (fun _ => (fun _ => 0, fun _ => 1)) (fun _ => 0)
      (fun _ => 0)
      (⟨fun _ => 0, fun _ => 0, fun _ => 1, fun _ => 0, fun _ => 0, 1, none, 0, none,
        1 / 2, 0, 0, 0, 0⟩ : Sampler 1)).1.tau = 2 := by
  have h := (tau_update (fun _ => (fun _ => 0, fun _ => 1)) (fun _ => 0) (fun _ => 0)
    (⟨fun _ => 0, fun _ => 0, fun _ => 1, fun _ => 0, fun _ => 0, 1, none, 0, none,
      1 / 2, 0, 0, 0, 0⟩ : Sampler 1)).1 (by norm_num)
  rw [h]
  have hmask : acceptedMask
      (⟨fun _ => 0, fun _ => 0, fun _ => 1, fun _ => 0, fun _ => 0, 1, none, 0, none,
        1 / 2, 0, 0, 0, 0⟩ : Sampler 1)
      (MetropolisSampler.acceptance_prob (fun _ => (fun _ => 0, fun _ => 1))
        (⟨fun _ => 0, fun _ => 0, fun _ => 1, fun _ => 0, fun _ => 0, 1, none, 0, none,
          1 / 2, 0, 0, 0, 0⟩ : Sampler 1)
        (MetropolisSampler.proposal
          (⟨fun _ => 0, fun _ => 0, fun _ => 1, fun _ => 0, fun _ => 0, 1, none, 0,
            none, 1 / 2, 0, 0, 0, 0⟩ : Sampler 1) (fun _ => 0))).1
      (MetropolisSampler.acceptance_prob (fun _ => (fun _ => 0, fun _ => 1))
        (⟨fun _ => 0, fun _ => 0, fun _ => 1, fun _ => 0, fun _ => 0, 1, none, 0, none,
          1 / 2, 0, 0, 0, 0⟩ : Sampler 1)
        (MetropolisSampler.proposal
          (⟨fun _ => 0, fun _ => 0, fun _ => 1, fun _ => 0, fun _ => 0, 1, none, 0,
            none, 1 / 2, 0, 0, 0, 0⟩ : Sampler 1) (fun _ => 0))).2.1
      (fun _ => 0) (0 : Fin 1) := by
    simp only [acceptedMask, MetropolisSampler.acceptance_prob]
    norm_num
  have hacc : (MetropolisSampler.step (fun _ => (fun _ => 0, fun _ => 1)) (fun _ => 0)
      (fun _ => 0)
      (⟨fun _ => 0, fun _ => 0, fun _ => 1, fun _ => 0, fun _ => 0, 1, none, 0, none,
        1 / 2, 0, 0, 0, 0⟩ : Sampler 1)).2.acceptance = 1 := by
    simp only [MetropolisSampler.step]
    rw [stepCommit_acceptance, Fin.sum_univ_one, if_pos hmask]
    norm_num
  rw [hacc]
  rw [max_eq_left (by norm_num : (0.05 : ℝ) ≤ 1)]
  norm_num

/-- C6: if the external `quantum_force` raises a decomposition failure during a
Langevin step, the step re-raises the error augmented with the offending candidate
positions (the proposal indexed by the error's walker indices, line 368), and the
sampler state carried at the raise point is exactly the untouched pre-step state —
the step aborts before any commit. -/
theorem qforce_error_aborts {W : ℕ}
    (quantum_force : (Fin W → ℝ) →
      Except (LUFactError W) ((Fin W → ℝ) × (Fin W → ℝ) × (Fin W → ℝ)))
    (clean_force : (Fin W → ℝ) → (Fin W → ℝ) → ℝ → Fin W → ℝ)
    (noise u : Fin W → ℝ) (s : Sampler W) (e : LUFactError W)
    (h : quantum_force (LangevinSampler.proposal s noise) = .error e) :
    LangevinSampler.step quantum_force clean_force noise u s =
      .error ({ e with
        rs := some (e.idxs.map (LangevinSampler.proposal s noise)) }, s) := by
  simp only [LangevinSampler.step, LangevinSampler.acceptance_prob,
    LangevinSampler.qforce, h]

/-- Witness for `qforce_error_aborts`: a one-walker Langevin step whose force oracle
always fails on walker index 0 re-raises with the candidate position `0` recorded and
the state unchanged. -/
theorem qforce_error_aborts_witness :
    LangevinSampler.step (fun _ => .error (⟨[0], none⟩ : LUFactError 1))
      (fun f _ _ => f) (fun _ => 0) (fun _ => 0)
      (⟨fun _ => 0, fun _ => 0, fun _ => 1, fun _ => 0, fun _ => 0, 1, none, 0, none,
        0, 0, 0, 0, 0⟩ : Sampler 1) =
      .error (⟨[0], some [0]⟩,
        ⟨fun _ => 0, fun _ => 0, fun _ => 1, fun _ => 0, fun _ => 0, 1, none, 0, none,
          0, 0, 0, 0, 0⟩) := by
  rw [qforce_error_aborts _ _ _ _ _ _ rfl]
  norm_num [LangevinSampler.proposal]

/-- C7: the lazy sequence of `iter_with_info()` executes but does not yield the first
`n_discard` steps and thereafter yields exactly one sample every `n_decorrelate + 1`
steps — the yielded internal step indexes are exactly
`n_discard + j * (n_decorrelate + 1)`; in particular with `n_discard = 10` the first
yielded sample is the result of internal (zero-based) step index 10. -/
theorem iter_with_info_schedule (n_discard n_decorrelate k : ℕ) :
    (k < n_discard → ¬ iterWithInfoYields n_discard n_decorrelate k) ∧
    (iterWithInfoYields n_discard n_decorrelate k ↔
      ∃ j : ℕ, k = n_discard + j * (n_decorrelate + 1)) ∧
    (iterWithInfoYields 10 n_decorrelate 10 ∧
      ∀ k' : ℕ, k' < 10 → ¬ iterWithInfoYields 10 n_decorrelate k') := by
  refine ⟨?_, ?_, ?_, ?_⟩
  · intro hk h
    have h0 := h.1
    omega
  · constructor
    · rintro ⟨h0, hmod⟩
      obtain ⟨c, hc⟩ : ((n_decorrelate : ℤ) + 1) ∣ ((k : ℤ) - n_discard) :=
        Int.dvd_of_emod_eq_zero hmod
      have hc0 : 0 ≤ c := by
        by_contra hneg
        push_neg at hneg
        have hlt : ((n_decorrelate : ℤ) + 1) * c < 0 :=
          mul_neg_of_pos_of_neg (by positivity) hneg
        linarith
      refine ⟨c.toNat, ?_⟩
      have hcast : (k : ℤ) = n_discard + (c.toNat : ℤ) * (n_decorrelate + 1) := by
        rw [Int.toNat_of_nonneg hc0]
        linarith [hc]
      exact_mod_cast hcast
    · rintro ⟨j, rfl⟩
      constructor
      · have hnn : (0 : ℤ) ≤ (j : ℤ) * ((n_decorrelate : ℤ) + 1) := by positivity
        push_cast
        linarith
      · push_cast
        rw [show ((n_discard : ℤ) + j * (n_decorrelate + 1) - n_discard) =
          j * (n_decorrelate + 1) from by ring, Int.mul_emod_left]
  · exact ⟨by norm_num [iterWithInfoYields], by
      norm_num [iterWithInfoYields]⟩
  · intro k' hk' h
    have h0 := h.1
    omega

/-- Witness for `iter_with_info_schedule`: with `n_discard = 10` and
`n_decorrelate = 1`, step 5 is not yielded, step 10 (the first) is, step 12 is, and
step 11 is not. -/
theorem iter_with_info_schedule_witness :
    (¬ iterWithInfoYields 10 1 5) ∧ iterWithInfoYields 10 1 10 ∧
      iterWithInfoYields 10 1 12 ∧ ¬ iterWithInfoYields 10 1 11 := by
  refine ⟨(iter_with_info_schedule 10 1 5).1 (by norm_num),
    (iter_with_info_schedule 10 1 0).2.2.1,
    ((iter_with_info_schedule 10 1 12).2.1).2 ⟨1, by norm_num⟩, fun h => ?_⟩
  obtain ⟨j, hj⟩ := ((iter_with_info_schedule 10 1 11).2.1).1 h
  omega

/-- C8 (amended): each epoch of `iter_batches` draws exactly
`ceil(epoch_size * batch_size / walker_count)` samples (`iterBatchesSteps`, line 292);
the flattened shuffled pool has `walker_count * iterBatchesSteps` rows, and the
DataLoader emits `⌊pool / batch_size⌋` minibatches of exactly `batch_size` rows each
(trailing partial batch discarded) before `restart()` precedes the next epoch.  That
minibatch count is always at least `epoch_size` — it equals it in particular for
`epoch_size = 4, batch_size = 50` over 100 walkers — but it need not equal it: with 3
walkers, `epoch_size = 2` and `batch_size = 2` the epoch emits 3 minibatches
(see `iter_batches_count_counterexample`). -/
theorem iter_batches_epoch {α : Type} (epoch_size batch_size walker_count : ℕ)
    (hB : 0 < batch_size) (pool : List α)
    (hpool : pool.length =
      walker_count * iterBatchesSteps epoch_size batch_size walker_count) :
    (∀ b ∈ dataLoaderBatches pool batch_size, b.length = batch_size) ∧
    ((dataLoaderBatches pool batch_size).length =
      walker_count * iterBatchesSteps epoch_size batch_size walker_count /
        batch_size) ∧
    (0 < walker_count → epoch_size ≤ (dataLoaderBatches pool batch_size).length) := by
  refine ⟨?_, ?_, ?_⟩
  · intro b hb
    obtain ⟨j, hj, rfl⟩ := List.mem_map.1 hb
    have hjlt : j < pool.length / batch_size := List.mem_range.1 hj
    have h1 : (j + 1) * batch_size ≤ (pool.length / batch_size) * batch_size :=
      Nat.mul_le_mul_right batch_size (Nat.succ_le_of_lt hjlt)
    have h2 : (pool.length / batch_size) * batch_size ≤ pool.length :=
      Nat.div_mul_le_self _ _
    rw [Nat.succ_mul] at h1
    simp only [List.length_take, List.length_drop]
    omega
  · rw [dataLoaderBatches, List.length_map, List.length_range, hpool]
  · intro hW
    rw [dataLoaderBatches, List.length_map, List.length_range, hpool,
      iterBatchesSteps]
    rw [Nat.le_div_iff_mul_le hB]
    have hqr := Nat.div_add_mod (epoch_size * batch_size + walker_count - 1)
      walker_count
    have hr : (epoch_size * batch_size + walker_count - 1) % walker_count <
        walker_count := Nat.mod_lt _ hW
    omega

/-- Witness for `iter_batches_epoch`: `epoch_size = 4`, `batch_size = 50` over 100
walkers — the epoch draws 2 samples, the pool has 200 rows, and exactly 4 minibatches
of exactly 50 rows each are emitted. -/
theorem iter_batches_epoch_witness :
    (∀ b ∈ dataLoaderBatches (List.range 200) 50, b.length = 50) ∧
    (dataLoaderBatches (List.range 200) 50).length = 4 := by
  have h := iter_batches_epoch 4 50 100 (by norm_num) (List.range 200)
    (by norm_num [iterBatchesSteps, List.length_range])
  exact ⟨h.1, by rw [h.2.1]; rfl⟩

/-- Counterexample to C8 as stated: with 3 walkers, `epoch_size = 2` and
`batch_size = 2`, the epoch draws `ceil(4/3) = 2` samples, the flattened pool has 6
rows, and the DataLoader emits 3 minibatches — not exactly `epoch_size = 2`. -/
theorem iter_batches_count_counterexample :
    iterBatchesSteps 2 2 3 = 2 ∧
    (dataLoaderBatches (List.range (3 * iterBatchesSteps 2 2 3)) 2).length = 3 ∧
    (dataLoaderBatches (List.range (3 * iterBatchesSteps 2 2 3)) 2).length ≠ 2 := by
  refine ⟨rfl, by decide, by decide⟩

end DeepQMC
